import Mathlib

/-!
Shallow embedding of `Source/Core/DiscIO/DiscExtractor.cpp` (disc-image
extraction helpers) together with theorems checking its specification.

External collaborators (the `Volume`, the host filesystem and the `File`
utilities) are modelled as capability records, exactly at the interface the
extractor consumes.  Machine integers are modelled as `Nat`, with an explicit
`% 2 ^ 32` (resp. `% 2 ^ 64`) at the arithmetic sites where the source
performs `u32` (resp. `u64`) arithmetic that can wrap.
-/

set_option autoImplicit false

namespace DiscExtractor

/-- An opaque identifier selecting which logical partition of the volume
subsequent reads are relative to. -/
structure Partition where
  pid : Nat
deriving DecidableEq

/-- Modelled from the spec: the medium flavors (`DiscIO/Enums.h` is not part
of the given sources).  The disc-type flavors are the GameCube disc and the
Wii disc; the Wii disc flavor is the one that uses offset-shifted
addressing. -/
inductive Platform where
  | gameCubeDisc
  | wiiDisc
  | wiiWad
  | elfDol
deriving DecidableEq

/-- Modelled from the spec: a medium is disc-type exactly when its flavor is
one of the two disc flavors. -/
def IsDisc (p : Platform) : Bool :=
  p = Platform.gameCubeDisc || p = Platform.wiiDisc

/-- The disc-image abstraction consumed by the extractor: a byte at every
partition-relative address, a success predicate for bulk reads, and the
4-byte big-endian typed read `ReadSwapped<u32>` (whose results are `u32`
values, i.e. `< 2 ^ 32` for a well-formed volume). -/
structure Volume where
  volumeType : Platform
  data : Partition → Nat → Nat
  readOk : Partition → Nat → Nat → Bool
  readSwapped32 : Partition → Nat → Option Nat

/-- `Volume::Read(offset, length, buffer, partition)`: on success the buffer
holds the `length` bytes at partition-relative addresses
`offset, offset + 1, ...`. -/
def Volume.read (v : Volume) (part : Partition) (offset length : Nat) :
    Option (List Nat) :=
  if v.readOk part offset length then
    some ((List.range length).map fun i => v.data part (offset + i))
  else
    none

/-- One node of the disc's directory tree (`DiscIO::FileInfo`): name, byte
offset within the partition, size in bytes, kind, and the ordered children
(empty for non-directories). -/
inductive FileInfo where
  | mk (name : String) (offset : Nat) (size : Nat) (isDir : Bool)
      (children : List FileInfo)

def FileInfo.name : FileInfo → String
  | .mk n _ _ _ _ => n

def FileInfo.offset : FileInfo → Nat
  | .mk _ o _ _ _ => o

def FileInfo.size : FileInfo → Nat
  | .mk _ _ s _ _ => s

def FileInfo.isDirectory : FileInfo → Bool
  | .mk _ _ _ d _ => d

def FileInfo.children : FileInfo → List FileInfo
  | .mk _ _ _ _ c => c

/-- The host filesystem contents: files as an association list from path to
byte content (the first entry for a path is its current content), plus the
list of directory paths that have been created. -/
structure FS where
  files : List (String × List Nat)
  dirs : List String
deriving DecidableEq

/-- Content of the host file at `path`, if it exists. -/
def FS.getFile (fs : FS) (path : String) : Option (List Nat) :=
  (fs.files.find? fun e => e.1 == path).map (fun e => e.2)

/-- `File::Exists` on the model. -/
def FS.fileExists (fs : FS) (path : String) : Bool :=
  (fs.files.find? fun e => e.1 == path).isSome

/-- Creating (or truncating and rewriting) the host file at `path`. -/
def FS.setFile (fs : FS) (path : String) (content : List Nat) : FS :=
  { files := (path, content) :: fs.files, dirs := fs.dirs }

/-- `File::CreateFullPath` on the model: records the directory path. -/
def FS.addDir (fs : FS) (path : String) : FS :=
  { files := fs.files, dirs := path :: fs.dirs }

/-- Host I/O capability: whether opening a path for binary writing (`"wb"`)
succeeds, and whether the write of a chunk of the given length succeeds once
the given number of bytes has already been written to that path. -/
structure Host where
  openOk : String → Bool
  writeOk : String → Nat → Nat → Bool

/-- The bytes of `v` at partition-relative addresses
`[offset, offset + n)`. -/
def volumeBytes (v : Volume) (part : Partition) (offset n : Nat) : List Nat :=
  (List.range n).map fun i => v.data part (offset + i)

/-- `DiscIO::ReadFile`: returns the number of bytes copied together with the
bytes placed in the caller's buffer.  The address passed to the volume is the
`u64` sum of the file's disc offset and the offset within the file. -/
def ReadFile (v : Volume) (part : Partition) (file_info : Option FileInfo)
    (max_buffer_size offset_in_file : Nat) : Nat × List Nat :=
  match file_info with
  | none => (0, [])
  | some fi =>
    if fi.isDirectory = true ∨ fi.size ≤ offset_in_file then (0, [])
    else
      let read_length := min max_buffer_size (fi.size - offset_in_file)
      match v.read part ((fi.offset + offset_in_file) % 2 ^ 64) read_length with
      | none => (0, [])
      | some bytes => (read_length, bytes)

/-- The chunked transfer loop of `DiscIO::ExportData`: reads chunks of at
most `0x08000000` bytes from the volume and writes them to the host file,
returning the overall success flag and the bytes written to the file.
`written` counts the bytes already written to the file by earlier chunks. -/
def exportDataLoop (v : Volume) (part : Partition) (h : Host) (fname : String)
    (offset size written : Nat) : Bool × List Nat :=
  if size = 0 then (true, [])
  else
    let read_size := min size 0x08000000
    match v.read part offset read_size with
    | none => (false, [])
    | some buffer =>
      if h.writeOk fname written read_size then
        let r := exportDataLoop v part h fname ((offset + read_size) % 2 ^ 64)
          (size - read_size) (written + read_size)
        (r.1, buffer ++ r.2)
      else (false, [])
termination_by size
decreasing_by
  omega

/-- `DiscIO::ExportData`: opens the destination for binary writing
(truncating), then streams `[offset, offset + size)` to it in chunks.
Returns the success flag and the resulting host filesystem. -/
def ExportData (v : Volume) (part : Partition) (h : Host) (offset size : Nat)
    (export_filename : String) (fs : FS) : Bool × FS :=
  if h.openOk export_filename then
    let r := exportDataLoop v part h export_filename offset size 0
    (r.1, fs.setFile export_filename r.2)
  else (false, fs)

/-- `DiscIO::ExportFile`. -/
def ExportFile (v : Volume) (part : Partition) (h : Host)
    (file_info : Option FileInfo) (export_filename : String) (fs : FS) :
    Bool × FS :=
  match file_info with
  | none => (false, fs)
  | some fi =>
    if fi.isDirectory = true then (false, fs)
    else ExportData v part h fi.offset fi.size export_filename fs

/-- Result of one `ExportDirectory` loop: the host filesystem, the list of
paths passed to the progress callback (in order), and whether the loop ended
by the early `return` taken when the callback signalled cancellation. -/
structure DirResult where
  fs : FS
  trace : List String
  cancelled : Bool
deriving DecidableEq

/-- The child-processing loop of `DiscIO::ExportDirectory`, one iteration per
entry of the list.  A recursive call on a subdirectory inlines the body of
`ExportDirectory` (its `CreateFullPath` followed by the loop over the
child's children); as in the source, the outcome of that inner call does not
affect the enclosing loop. -/
def exportEntries (v : Volume) (part : Partition) (h : Host) (recursive : Bool)
    (update_progress : String → Bool) :
    List FileInfo → String → String → FS → DirResult
  | [], _, _, fs => ⟨fs, [], false⟩
  | FileInfo.mk nm off sz isDir children :: rest, filesystem_path,
      export_folder, fs =>
    let name := nm ++ (if isDir then "/" else "")
    let path := filesystem_path ++ name
    let export_path := export_folder ++ "/" ++ name
    if update_progress path then ⟨fs, [path], true⟩
    else
      let inner : FS × List String :=
        if isDir = false then
          (if fs.fileExists export_path then fs
           else
            (ExportFile v part h (some (FileInfo.mk nm off sz isDir children))
              export_path fs).2, [])
        else if recursive then
          let d := exportEntries v part h recursive update_progress children
            path export_path (fs.addDir (export_path ++ "/"))
          (d.fs, d.trace)
        else (fs, [])
      let r := exportEntries v part h recursive update_progress rest
        filesystem_path export_folder inner.1
      ⟨r.fs, path :: (inner.2 ++ r.trace), r.cancelled⟩

/-- `DiscIO::ExportDirectory`: ensures the export folder exists, then walks
the directory's children. -/
def ExportDirectory (v : Volume) (part : Partition) (h : Host)
    (directory : FileInfo) (recursive : Bool)
    (filesystem_path export_folder : String)
    (update_progress : String → Bool) (fs : FS) : DirResult :=
  exportEntries v part h recursive update_progress directory.children
    filesystem_path export_folder (fs.addDir (export_folder ++ "/"))

/-- `DiscIO::ExportApploader`: the `u32` sum
`apploader_size + trailer_size + 0x20` wraps modulo `2 ^ 32`. -/
def ExportApploader (v : Volume) (part : Partition) (h : Host)
    (export_filename : String) (fs : FS) : Bool × FS :=
  if IsDisc v.volumeType then
    match v.readSwapped32 part (0x2440 + 0x14),
        v.readSwapped32 part (0x2440 + 0x18) with
    | some apl, some trl =>
      ExportData v part h 0x2440 ((apl + trl + 0x20) % 2 ^ 32)
        export_filename fs
    | _, _ => (false, fs)
  else (false, fs)

/-- `DiscIO::GetBootDOLOffset`: the raw `u32` field at `0x420` is widened to
`u64` before the shift, so the shift never wraps. -/
def GetBootDOLOffset (v : Volume) (part : Partition) : Option Nat :=
  if IsDisc v.volumeType then
    (v.readSwapped32 part 0x420).map fun off =>
      off <<< (if v.volumeType = Platform.wiiDisc then 2 else 0)
  else none

/-- One of the two descriptor loops of `DiscIO::GetBootDOLSize`: reads
`count` descriptors starting at index `i`, the offset field of descriptor
`j` at `u64` address `dol_offset + base_off + j * 4` and the size field at
`dol_offset + base_size + j * 4`, accumulating the maximum of the `u32` sums
`(off + sz) % 2 ^ 32` into `acc`. -/
def dolSegmentLoop (v : Volume) (part : Partition)
    (dol_offset base_off base_size : Nat) : Nat → Nat → Nat → Option Nat
  | _, 0, acc => some acc
  | i, count + 1, acc =>
    match v.readSwapped32 part ((dol_offset + base_off + i * 4) % 2 ^ 64),
        v.readSwapped32 part ((dol_offset + base_size + i * 4) % 2 ^ 64) with
    | some off, some sz =>
      dolSegmentLoop v part dol_offset base_off base_size (i + 1) count
        (max ((off + sz) % 2 ^ 32) acc)
    | _, _ => none

/-- `DiscIO::GetBootDOLSize`: 7 code descriptors (offsets at `+0x00`, sizes
at `+0x90`) followed by 11 data descriptors (offsets at `+0x1c`, sizes at
`+0xac`). -/
def GetBootDOLSize (v : Volume) (part : Partition) (dol_offset : Nat) :
    Option Nat :=
  if IsDisc v.volumeType then
    match dolSegmentLoop v part dol_offset 0x00 0x90 0 7 0 with
    | none => none
    | some acc => dolSegmentLoop v part dol_offset 0x1c 0xac 0 11 acc
  else none

/-- `DiscIO::ExportDOL`. -/
def ExportDOL (v : Volume) (part : Partition) (h : Host)
    (export_filename : String) (fs : FS) : Bool × FS :=
  if IsDisc v.volumeType then
    match GetBootDOLOffset v part with
    | none => (false, fs)
    | some dol_offset =>
      match GetBootDOLSize v part dol_offset with
      | none => (false, fs)
      | some dol_size =>
        ExportData v part h dol_offset dol_size export_filename fs
  else (false, fs)

/-- `DiscIO::ExportSystemData`: `success &= ...` evaluates both exports. -/
def ExportSystemData (v : Volume) (part : Partition) (h : Host)
    (export_folder : String) (fs : FS) : Bool × FS :=
  let r1 := ExportApploader v part h (export_folder ++ "/apploader.img") fs
  let r2 := ExportDOL v part h (export_folder ++ "/boot.dol") r1.2
  (r1.1 && r2.1, r2.2)

/-- The host-file paths of the entries that a traversal of `entries` under
host folder `folder` attempts to export as files: direct non-directory
children, and (when `recursive` is set) the file descendants of directory
children.  Spec-side enumeration used to state the directory-export
claims. -/
def exportFilePaths (recursive : Bool) : List FileInfo → String → List String
  | [], _ => []
  | FileInfo.mk nm _ _ isDir children :: rest, folder =>
    (if isDir then
      (if recursive then
        exportFilePaths recursive children (folder ++ "/" ++ (nm ++ "/"))
       else [])
     else [folder ++ "/" ++ nm]) ++ exportFilePaths recursive rest folder

/-- The logical disc-relative paths of the traversed entries, in traversal
order (pre-order, directories before their contents).  Spec-side enumeration
used to state that the progress callback reports every traversed entry
exactly once. -/
def specEntryPaths (recursive : Bool) : List FileInfo → String → List String
  | [], _ => []
  | FileInfo.mk nm _ _ isDir children :: rest, fsp =>
    (fsp ++ (nm ++ if isDir then "/" else "")) ::
      ((if isDir && recursive then
          specEntryPaths recursive children (fsp ++ (nm ++ if isDir then "/" else ""))
        else []) ++ specEntryPaths recursive rest fsp)

/-- Concrete volume refuting C1 as stated: on a GameCube disc every
descriptor field reads as zero except the first code descriptor, whose
offset field (at address `dol_offset + 0x00`) is `0xFFFFFFFF` and whose size
field (at `dol_offset + 0x90`) is `2`. -/
def c1Vol : Volume :=
  { volumeType := Platform.gameCubeDisc
    data := fun _ _ => 0
    readOk := fun _ _ _ => true
    readSwapped32 := fun _ a =>
      if a = 0 then some 0xFFFFFFFF else if a = 0x90 then some 2 else some 0 }

/-- Concrete volume for the C1 witness: the spec's test vector, one
descriptor with offset `0x100` and size `0x50`, all other fields zero. -/
def c1wVol : Volume :=
  { volumeType := Platform.gameCubeDisc
    data := fun _ _ => 0
    readOk := fun _ _ _ => true
    readSwapped32 := fun _ a =>
      if a = 0 then some 0x100 else if a = 0x90 then some 0x50 else some 0 }

/-! ## Basic lemmas about the volume and the transfer loop -/

theorem Volume.read_of_ok (v : Volume) (part : Partition) (offset length : Nat)
    (h : v.readOk part offset length = true) :
    v.read part offset length = some (volumeBytes v part offset length) := by
  simp [Volume.read, volumeBytes, h]

theorem Volume.read_of_fail (v : Volume) (part : Partition) (offset length : Nat)
    (h : v.readOk part offset length = false) :
    v.read part offset length = none := by
  simp [Volume.read, h]

theorem exportDataLoop_zero (v : Volume) (part : Partition) (h : Host)
    (fname : String) (offset written : Nat) :
    exportDataLoop v part h fname offset 0 written = (true, []) := by
  simp [exportDataLoop]

theorem exportDataLoop_step (v : Volume) (part : Partition) (h : Host)
    (fname : String) (offset size written : Nat) (hs : size ≠ 0) :
    exportDataLoop v part h fname offset size written =
      match v.read part offset (min size 0x08000000) with
      | none => (false, [])
      | some buffer =>
        if h.writeOk fname written (min size 0x08000000) then
          let r := exportDataLoop v part h fname
            ((offset + min size 0x08000000) % 2 ^ 64)
            (size - min size 0x08000000) (written + min size 0x08000000)
          (r.1, buffer ++ r.2)
        else (false, [])
    := by
  rw [exportDataLoop]
  simp [hs]

theorem volumeBytes_append (v : Volume) (part : Partition) (offset m n : Nat) :
    volumeBytes v part offset (m + n)
      = volumeBytes v part offset m ++ volumeBytes v part (offset + m) n := by
  simp [volumeBytes, List.range_add, List.map_map, Function.comp]
  intro i _
  rw [Nat.add_assoc]

/-! ## C10: zero-size export -/

/-- C10: for `size = 0`, `ExportData` performs no volume reads and no host
writes beyond opening the destination (its result does not depend on the
volume, nor on the host's write capability), and whenever the host file can
be opened it succeeds leaving an empty file at `export_filename`. -/
theorem exportData_zero_size (v : Volume) (part : Partition) (h : Host)
    (offset : Nat) (fname : String) (fs : FS) :
    ExportData v part h offset 0 fname fs
      = (h.openOk fname, if h.openOk fname then fs.setFile fname [] else fs) ∧
    (∀ v₂ : Volume, ExportData v₂ part h offset 0 fname fs
      = ExportData v part h offset 0 fname fs) ∧
    (∀ h₂ : Host, h₂.openOk = h.openOk →
      ExportData v part h₂ offset 0 fname fs
        = ExportData v part h offset 0 fname fs) := by
  refine ⟨?_, ?_, ?_⟩
  · cases hopen : h.openOk fname <;>
      simp [ExportData, hopen, exportDataLoop_zero]
  · intro v₂
    cases hopen : h.openOk fname <;>
      simp [ExportData, hopen, exportDataLoop_zero]
  · intro h₂ hh
    cases hopen : h.openOk fname <;>
      simp [ExportData, hopen, hh, exportDataLoop_zero]

/-- Witness for C10 at a concrete input. -/
theorem exportData_zero_size_witness :
    ExportData
        ⟨Platform.gameCubeDisc, fun _ a => a, fun _ _ _ => true, fun _ _ => some 0⟩
        ⟨0⟩ ⟨fun _ => true, fun _ _ _ => false⟩ 5 0 "f" ⟨[], []⟩
      = ExportData
          ⟨Platform.gameCubeDisc, fun _ a => a, fun _ _ _ => true, fun _ _ => some 0⟩
          ⟨0⟩ ⟨fun _ => true, fun _ _ _ => true⟩ 5 0 "f" ⟨[], []⟩ :=
  (exportData_zero_size
      ⟨Platform.gameCubeDisc, fun _ a => a, fun _ _ _ => true, fun _ _ => some 0⟩
      ⟨0⟩ ⟨fun _ => true, fun _ _ _ => true⟩ 5 "f" ⟨[], []⟩).2.2
    ⟨fun _ => true, fun _ _ _ => false⟩ rfl

/-! ## C8: boot executable offset -/

/-- C8: `GetBootDOLOffset` returns no value on a non-disc medium or when the
read at `0x420` fails; on a Wii disc (the flavor with offset-shifted
addressing) a raw value `w` resolves to `w <<< 2`, and on any other disc
flavor the raw value is returned unshifted. -/
theorem getBootDOLOffset_spec (v : Volume) (part : Partition) (w : Nat) :
    (IsDisc v.volumeType = false → GetBootDOLOffset v part = none) ∧
    (v.readSwapped32 part 0x420 = none → GetBootDOLOffset v part = none) ∧
    (v.volumeType = Platform.wiiDisc → v.readSwapped32 part 0x420 = some w →
      GetBootDOLOffset v part = some (w <<< 2)) ∧
    (IsDisc v.volumeType = true → v.volumeType ≠ Platform.wiiDisc →
      v.readSwapped32 part 0x420 = some w → GetBootDOLOffset v part = some w) := by
  refine ⟨?_, ?_, ?_, ?_⟩
  · intro hd
    simp [GetBootDOLOffset, hd]
  · intro hr
    cases hd : IsDisc v.volumeType <;> simp [GetBootDOLOffset, hd, hr]
  · intro ht hr
    have hd : IsDisc v.volumeType = true := by simp [IsDisc, ht]
    simp [GetBootDOLOffset, hd, ht, hr, IsDisc]
  · intro hd ht hr
    simp [GetBootDOLOffset, hd, ht, hr]

/-- Witness for C8 at a concrete input: a Wii disc with raw value 3 resolves
to 12. -/
theorem getBootDOLOffset_spec_witness :
    GetBootDOLOffset
        ⟨Platform.wiiDisc, fun _ _ => 0, fun _ _ _ => true,
          fun _ a => if a = 0x420 then some 3 else none⟩ ⟨0⟩
      = some (3 <<< 2) :=
  (getBootDOLOffset_spec
      ⟨Platform.wiiDisc, fun _ _ => 0, fun _ _ _ => true,
        fun _ a => if a = 0x420 then some 3 else none⟩ ⟨0⟩ 3).2.2.1 rfl rfl

/-! ## C1: boot executable size -/

theorem dolSegmentLoop_some (v : Volume) (part : Partition)
    (d bo bs : Nat) (f g : Nat → Nat) :
    ∀ count i acc,
      (∀ j, j < count →
        v.readSwapped32 part ((d + bo + (i + j) * 4) % 2 ^ 64) = some (f (i + j)) ∧
        v.readSwapped32 part ((d + bs + (i + j) * 4) % 2 ^ 64) = some (g (i + j))) →
      dolSegmentLoop v part d bo bs i count acc =
        some (((List.range count).map fun j => (f (i + j) + g (i + j)) % 2 ^ 32).foldl
          (fun a x => max x a) acc) := by
  intro count
  induction count with
  | zero => intro i acc _; simp [dolSegmentLoop]
  | succ n ih =>
    intro i acc hr
    have h0 := hr 0 (Nat.succ_pos n)
    simp only [Nat.add_zero] at h0
    have hstep : dolSegmentLoop v part d bo bs i (n + 1) acc =
        dolSegmentLoop v part d bo bs (i + 1) n (max ((f i + g i) % 2 ^ 32) acc) := by
      simp only [dolSegmentLoop, h0.1, h0.2]
    rw [hstep]
    rw [ih (i + 1) (max ((f i + g i) % 2 ^ 32) acc) ?_]
    · congr 1
      rw [List.range_succ_eq_map]
      simp only [List.map_cons, List.map_map, List.foldl_cons, Nat.add_zero]
      congr 1
      refine List.map_congr_left ?_
      intro j _
      simp only [Function.comp_apply, Nat.succ_eq_add_one]
      have e : i + 1 + j = i + (j + 1) := by omega
      rw [e]
    · intro j hj
      have := hr (j + 1) (by omega)
      have e1 : i + 1 + j = i + (j + 1) := by omega
      rw [e1]
      exact this


theorem dolSegmentLoop_none (v : Volume) (part : Partition) (d bo bs : Nat) :
    ∀ count i acc j, i ≤ j → j < i + count →
      (v.readSwapped32 part ((d + bo + j * 4) % 2 ^ 64) = none ∨
       v.readSwapped32 part ((d + bs + j * 4) % 2 ^ 64) = none) →
      dolSegmentLoop v part d bo bs i count acc = none := by
  intro count
  induction count with
  | zero => intro i acc j h1 h2 _; omega
  | succ n ih =>
    intro i acc j h1 h2 hfail
    by_cases hij : j = i
    · subst hij
      rcases hfail with h | h
      · simp only [dolSegmentLoop, h]
      · simp only [dolSegmentLoop, h]
        cases v.readSwapped32 part ((d + bo + j * 4) % 2 ^ 64) <;> rfl
    · simp only [dolSegmentLoop]
      cases ho : v.readSwapped32 part ((d + bo + i * 4) % 2 ^ 64) with
      | none => rfl
      | some off =>
        cases hs : v.readSwapped32 part ((d + bs + i * 4) % 2 ^ 64) with
        | none => rfl
        | some sz => exact ih (i + 1) _ j (by omega) (by omega) hfail

/-- C1 counterexample: the medium is a disc and all 18 descriptor reads
succeed, the maximum of (segment offset + segment size) over the descriptors
is `0xFFFFFFFF + 2 = 0x100000001`, yet `GetBootDOLSize` returns `1`: the
`u32` sum `*offset + *size` wraps modulo `2 ^ 32`. -/
theorem getBootDOLSize_overflow_counterexample :
    GetBootDOLSize c1Vol ⟨0⟩ 0 = some 1 ∧
    IsDisc c1Vol.volumeType = true ∧
    c1Vol.readSwapped32 ⟨0⟩ (0 + 0 * 4) = some 0xFFFFFFFF ∧
    c1Vol.readSwapped32 ⟨0⟩ (0 + 0x90 + 0 * 4) = some 2 ∧
    (0xFFFFFFFF + 2 : Nat) = 0x100000001 ∧ (1 : Nat) ≠ 0x100000001 := by
  refine ⟨by decide, by decide, by decide, by decide, by decide, by decide⟩

/-- C1 (amended): on a non-disc medium `GetBootDOLSize` returns no value; on
a disc medium it returns no value if any of the 18 descriptor reads (7 code
descriptors with offsets at `+0x00` and sizes at `+0x90`, 11 data
descriptors with offsets at `+0x1c` and sizes at `+0xac`, stride 4) fails,
and otherwise returns the maximum of `(segment offset + segment size) % 2 ^ 32`
over all 18 descriptors (an `offset = size = 0` descriptor contributing 0). -/
theorem getBootDOLSize_spec (v : Volume) (part : Partition) (d : Nat)
    (co cs eo es : Nat → Nat) :
    (IsDisc v.volumeType = false → GetBootDOLSize v part d = none) ∧
    (IsDisc v.volumeType = true → d + 0xd8 ≤ 2 ^ 64 →
      ((∃ i, i < 7 ∧ (v.readSwapped32 part (d + i * 4) = none ∨
          v.readSwapped32 part (d + 0x90 + i * 4) = none)) →
        GetBootDOLSize v part d = none) ∧
      ((∃ i, i < 11 ∧ (v.readSwapped32 part (d + 0x1c + i * 4) = none ∨
          v.readSwapped32 part (d + 0xac + i * 4) = none)) →
        GetBootDOLSize v part d = none) ∧
      ((∀ i, i < 7 → v.readSwapped32 part (d + i * 4) = some (co i) ∧
          v.readSwapped32 part (d + 0x90 + i * 4) = some (cs i)) →
       (∀ i, i < 11 → v.readSwapped32 part (d + 0x1c + i * 4) = some (eo i) ∧
          v.readSwapped32 part (d + 0xac + i * 4) = some (es i)) →
        GetBootDOLSize v part d =
          some ((((List.range 7).map fun i => (co i + cs i) % 2 ^ 32) ++
              (List.range 11).map fun i => (eo i + es i) % 2 ^ 32).foldl max 0))) := by
  have hmod : ∀ a : Nat, a < 2 ^ 64 → a % 2 ^ 64 = a := fun a h => Nat.mod_eq_of_lt h
  refine ⟨fun hd => by simp [GetBootDOLSize, hd], fun hd h64 => ⟨?_, ?_, ?_⟩⟩
  · rintro ⟨i, hi, hfail⟩
    have : dolSegmentLoop v part d 0x00 0x90 0 7 0 = none := by
      refine dolSegmentLoop_none v part d 0x00 0x90 7 0 0 i (Nat.zero_le i)
        (by omega) ?_
      rcases hfail with h | h
      · left
        rw [hmod _ (by omega)]
        simpa using h
      · right
        rw [hmod _ (by omega)]
        exact h
    simp [GetBootDOLSize, hd, this]
  · rintro ⟨i, hi, hfail⟩
    have hdata : ∀ acc, dolSegmentLoop v part d 0x1c 0xac 0 11 acc = none := by
      intro acc
      refine dolSegmentLoop_none v part d 0x1c 0xac 11 0 acc i (Nat.zero_le i)
        (by omega) ?_
      rcases hfail with h | h
      · left
        rw [hmod _ (by omega)]
        exact h
      · right
        rw [hmod _ (by omega)]
        exact h
    cases hcode : dolSegmentLoop v part d 0x00 0x90 0 7 0 with
    | none => simp [GetBootDOLSize, hd, hcode]
    | some acc => simp [GetBootDOLSize, hd, hcode, hdata]
  · intro hcode hdata
    have h1 : dolSegmentLoop v part d 0x00 0x90 0 7 0 =
        some (((List.range 7).map fun j => (co j + cs j) % 2 ^ 32).foldl
          (fun a x => max x a) 0) := by
      have := dolSegmentLoop_some v part d 0x00 0x90 co cs 7 0 0 ?_
      · simpa using this
      · intro j hj
        have := hcode j hj
        refine ⟨?_, ?_⟩
        · rw [hmod _ (by omega)]
          simpa using this.1
        · rw [hmod _ (by omega)]
          simpa using this.2
    have h2 := dolSegmentLoop_some v part d 0x1c 0xac eo es 11 0
      (((List.range 7).map fun j => (co j + cs j) % 2 ^ 32).foldl
        (fun a x => max x a) 0) ?_
    · have hmax : (fun (a x : Nat) => max x a) = max := by
        funext a x
        exact Nat.max_comm x a
      simp only [GetBootDOLSize, hd, if_true, h1]
      rw [h2]
      simp only [Nat.zero_add] at *
      rw [← List.foldl_append]
      rw [hmax]
    · intro j hj
      have := hdata j hj
      refine ⟨?_, ?_⟩
      · rw [hmod _ (by omega)]
        simpa using this.1
      · rw [hmod _ (by omega)]
        simpa using this.2

/-- Witness for the amended C1 at a concrete input: one descriptor with
offset `0x100` and size `0x50`, all others zero, gives size `0x150`. -/
theorem getBootDOLSize_spec_witness :
    GetBootDOLSize c1wVol ⟨0⟩ 0 = some 0x150 :=
  (((getBootDOLSize_spec c1wVol ⟨0⟩ 0 (fun i => if i = 0 then 0x100 else 0)
      (fun i => if i = 0 then 0x50 else 0) (fun _ => 0) (fun _ => 0)).2
    (by decide) (by decide)).2.2 (by decide) (by decide)).trans (by decide)

/-! ## C3: ReadFile -/

/-- C3: `ReadFile` returns 0 (and fills nothing) for a null `FileInfo`, for
a directory, for a start offset at or past the file size, and when the
delegated volume read fails; otherwise it returns
`min capacity (size - offset)` and the buffer holds the volume's bytes at
partition-relative addresses starting at `disc_offset + offset`.  The
hypothesis `fi.offset + fi.size ≤ 2 ^ 64` is the data-model invariant that
the file lies within the `u64`-addressed partition. -/
theorem readFile_spec (v : Volume) (part : Partition) (fi : FileInfo)
    (cap o : Nat) :
    (ReadFile v part none cap o = (0, [])) ∧
    (fi.isDirectory = true → ReadFile v part (some fi) cap o = (0, [])) ∧
    (fi.size ≤ o → ReadFile v part (some fi) cap o = (0, [])) ∧
    (fi.isDirectory = false → o < fi.size → fi.offset + fi.size ≤ 2 ^ 64 →
      v.readOk part (fi.offset + o) (min cap (fi.size - o)) = false →
      ReadFile v part (some fi) cap o = (0, [])) ∧
    (fi.isDirectory = false → o < fi.size → fi.offset + fi.size ≤ 2 ^ 64 →
      v.readOk part (fi.offset + o) (min cap (fi.size - o)) = true →
      ReadFile v part (some fi) cap o =
        (min cap (fi.size - o),
         volumeBytes v part (fi.offset + o) (min cap (fi.size - o)))) := by
  have haddr : o < fi.size → fi.offset + fi.size ≤ 2 ^ 64 →
      (fi.offset + o) % 2 ^ 64 = fi.offset + o := fun h1 h2 =>
    Nat.mod_eq_of_lt (by omega)
  refine ⟨rfl, ?_, ?_, ?_, ?_⟩
  · intro hdir
    simp [ReadFile, hdir]
  · intro hle
    simp [ReadFile, hle]
  · intro hdir hlt h64 hfail
    rw [ReadFile]
    rw [if_neg (by simp [hdir]; omega)]
    simp only [haddr hlt h64, Volume.read_of_fail v part _ _ hfail]
  · intro hdir hlt h64 hok
    rw [ReadFile]
    rw [if_neg (by simp [hdir]; omega)]
    simp only [haddr hlt h64, Volume.read_of_ok v part _ _ hok]

/-- Witness for C3 at a concrete input: a 4-byte file at disc offset 100,
read from file offset 1 into a buffer of capacity 2. -/
theorem readFile_spec_witness :
    ReadFile ⟨Platform.gameCubeDisc, fun _ a => a, fun _ _ _ => true,
        fun _ _ => some 0⟩ ⟨0⟩
      (some (FileInfo.mk "b" 100 4 false [])) 2 1 =
      (min 2 (4 - 1),
       volumeBytes ⟨Platform.gameCubeDisc, fun _ a => a, fun _ _ _ => true,
         fun _ _ => some 0⟩ ⟨0⟩ (100 + 1) (min 2 (4 - 1))) :=
  (readFile_spec ⟨Platform.gameCubeDisc, fun _ a => a, fun _ _ _ => true,
      fun _ _ => some 0⟩ ⟨0⟩ (FileInfo.mk "b" 100 4 false []) 2 1).2.2.2.2
    rfl (by decide) (by decide) rfl

/-! ## C4 and C5: the bulk data exporter -/

/-- If every volume read of length at most the 128 MiB chunk cap succeeds
and every host write succeeds, the transfer loop succeeds and writes exactly
the bytes at `[offset, offset + size)`. -/
theorem exportDataLoop_success (v : Volume) (part : Partition) (h : Host)
    (fname : String) :
    ∀ size offset written, offset + size ≤ 2 ^ 64 →
      (∀ o l, l ≤ 0x08000000 → v.readOk part o l = true) →
      (∀ w l, h.writeOk fname w l = true) →
      exportDataLoop v part h fname offset size written =
        (true, volumeBytes v part offset size) := by
  intro size
  induction size using Nat.strong_induction_on with
  | _ size ih =>
    intro offset written h64 hread hwrite
    by_cases hz : size = 0
    · subst hz
      simp [exportDataLoop_zero, volumeBytes]
    · rw [exportDataLoop_step v part h fname offset size written hz]
      simp only [Volume.read_of_ok v part offset _ (hread _ _ (Nat.min_le_right _ _)),
        hwrite, if_true]
      by_cases hle : size ≤ 0x08000000
      · rw [Nat.min_eq_left hle]
        simp [Nat.sub_self, exportDataLoop_zero]
      · have hmin : min size 0x08000000 = 0x08000000 := Nat.min_eq_right (by omega)
        rw [hmin]
        have hoff : (offset + 0x08000000) % 2 ^ 64 = offset + 0x08000000 :=
          Nat.mod_eq_of_lt (by omega)
        rw [hoff]
        rw [ih (size - 0x08000000) (by omega) (offset + 0x08000000) _
          (by omega) hread hwrite]
        have : size = 0x08000000 + (size - 0x08000000) := by omega
        rw [show volumeBytes v part offset size
            = volumeBytes v part offset 0x08000000
              ++ volumeBytes v part (offset + 0x08000000) (size - 0x08000000) by
          conv_lhs => rw [this]
          exact volumeBytes_append v part offset _ _]

/-- C4: when the host file opens and every volume read (the loop only issues
reads of length at most `0x08000000`) and every host write succeeds,
`ExportData` returns success and the host file's content is exactly the
volume's bytes at `[offset, offset + size)`. -/
theorem exportData_success (v : Volume) (part : Partition) (h : Host)
    (offset size : Nat) (fname : String) (fs : FS)
    (h64 : offset + size ≤ 2 ^ 64)
    (hopen : h.openOk fname = true)
    (hread : ∀ o l, l ≤ 0x08000000 → v.readOk part o l = true)
    (hwrite : ∀ w l, h.writeOk fname w l = true) :
    ExportData v part h offset size fname fs =
      (true, fs.setFile fname (volumeBytes v part offset size)) := by
  rw [ExportData, if_pos hopen]
  rw [exportDataLoop_success v part h fname size offset 0 h64 hread hwrite]

/-- Witness for C4 at a concrete input: exporting 3 bytes at offset 10. -/
theorem exportData_success_witness :
    ExportData ⟨Platform.gameCubeDisc, fun _ a => a, fun _ _ _ => true,
        fun _ _ => some 0⟩ ⟨0⟩
      ⟨fun _ => true, fun _ _ _ => true⟩ 10 3 "f" ⟨[], []⟩ =
      (true, FS.setFile ⟨[], []⟩ "f"
        (volumeBytes ⟨Platform.gameCubeDisc, fun _ a => a, fun _ _ _ => true,
          fun _ _ => some 0⟩ ⟨0⟩ 10 3)) :=
  exportData_success ⟨Platform.gameCubeDisc, fun _ a => a, fun _ _ _ => true,
      fun _ _ => some 0⟩ ⟨0⟩ ⟨fun _ => true, fun _ _ _ => true⟩ 10 3 "f"
    ⟨[], []⟩ (by decide) rfl (fun _ _ _ => rfl) (fun _ _ => rfl)

/-- If the first `k` chunks (each of the full `0x08000000`-byte cap) read
and write successfully and chunk `k` fails (its read fails, or its read
succeeds and its write fails), the loop reports failure and the file holds
exactly the `k` completed chunks. -/
theorem exportDataLoop_fail (v : Volume) (part : Partition) (h : Host)
    (fname : String) :
    ∀ k offset size written, offset + size ≤ 2 ^ 64 →
      k * 0x08000000 < size →
      (∀ i, i < k →
        v.readOk part (offset + i * 0x08000000) 0x08000000 = true ∧
        h.writeOk fname (written + i * 0x08000000) 0x08000000 = true) →
      (v.readOk part (offset + k * 0x08000000)
          (min (size - k * 0x08000000) 0x08000000) = false ∨
       (v.readOk part (offset + k * 0x08000000)
          (min (size - k * 0x08000000) 0x08000000) = true ∧
        h.writeOk fname (written + k * 0x08000000)
          (min (size - k * 0x08000000) 0x08000000) = false)) →
      exportDataLoop v part h fname offset size written =
        (false, volumeBytes v part offset (k * 0x08000000)) := by
  intro k
  induction k with
  | zero =>
    intro offset size written h64 hk hpre hfail
    have hz : size ≠ 0 := by omega
    rw [exportDataLoop_step v part h fname offset size written hz]
    simp only [Nat.zero_mul, Nat.add_zero, Nat.sub_zero] at hfail
    rcases hfail with hf | ⟨hr, hw⟩
    · rw [Volume.read_of_fail v part _ _ hf]
      simp [volumeBytes]
    · rw [Volume.read_of_ok v part _ _ hr]
      simp [hw, volumeBytes]
  | succ k ih =>
    intro offset size written h64 hk hpre hfail
    have hz : size ≠ 0 := by omega
    have hC : 0x08000000 < size := by
      have : 0x08000000 ≤ (k + 1) * 0x08000000 := by
        calc 0x08000000 = 1 * 0x08000000 := (Nat.one_mul _).symm
          _ ≤ (k + 1) * 0x08000000 := Nat.mul_le_mul_right _ (by omega)
      omega
    have hmin : min size 0x08000000 = 0x08000000 := Nat.min_eq_right (by omega)
    have h0 := hpre 0 (Nat.succ_pos k)
    simp only [Nat.zero_mul, Nat.add_zero] at h0
    rw [exportDataLoop_step v part h fname offset size written hz]
    rw [hmin]
    simp only [Volume.read_of_ok v part _ _ h0.1, h0.2, if_true]
    have hoff : (offset + 0x08000000) % 2 ^ 64 = offset + 0x08000000 :=
      Nat.mod_eq_of_lt (by omega)
    rw [hoff]
    have harith : ∀ a i : Nat, a + 0x08000000 + i * 0x08000000
        = a + (i + 1) * 0x08000000 := by
      intro a i
      ring
    rw [ih (offset + 0x08000000) (size - 0x08000000) (written + 0x08000000)
      (by omega) (by omega) ?_ ?_]
    · have hsz : (k + 1) * 0x08000000 = 0x08000000 + k * 0x08000000 := by ring
      rw [hsz, volumeBytes_append v part offset 0x08000000 (k * 0x08000000)]
    · intro i hi
      rw [harith offset i, harith written i]
      exact hpre (i + 1) (by omega)
    · rw [harith offset k, harith written k]
      have hsub : size - 0x08000000 - k * 0x08000000
          = size - (k + 1) * 0x08000000 := by
        have : (k + 1) * 0x08000000 = 0x08000000 + k * 0x08000000 := by ring
        omega
      rw [hsub]
      exact hfail

/-- C5: `ExportData` returns failure without touching the filesystem when
the destination cannot be opened; and when the destination opens but chunk
`k` fails (after `k` successful full chunks), it returns failure leaving
exactly the completed chunks written - no rollback, no deletion, no
retry. -/
theorem exportData_failure (v : Volume) (part : Partition) (h : Host)
    (offset size : Nat) (fname : String) (fs : FS) (k : Nat) :
    (h.openOk fname = false → ExportData v part h offset size fname fs
      = (false, fs)) ∧
    (h.openOk fname = true → offset + size ≤ 2 ^ 64 →
      k * 0x08000000 < size →
      (∀ i, i < k →
        v.readOk part (offset + i * 0x08000000) 0x08000000 = true ∧
        h.writeOk fname (i * 0x08000000) 0x08000000 = true) →
      (v.readOk part (offset + k * 0x08000000)
          (min (size - k * 0x08000000) 0x08000000) = false ∨
       (v.readOk part (offset + k * 0x08000000)
          (min (size - k * 0x08000000) 0x08000000) = true ∧
        h.writeOk fname (k * 0x08000000)
          (min (size - k * 0x08000000) 0x08000000) = false)) →
      ExportData v part h offset size fname fs
        = (false, fs.setFile fname (volumeBytes v part offset
            (k * 0x08000000)))) := by
  constructor
  · intro hopen
    simp [ExportData, hopen]
  · intro hopen h64 hk hpre hfail
    rw [ExportData, if_pos hopen]
    rw [exportDataLoop_fail v part h fname k offset size 0 h64 hk ?_ ?_]
    · intro i hi
      simpa using hpre i hi
    · simpa using hfail

/-- Witness for C5 at a concrete input: a volume whose reads always fail,
with a 3-byte transfer, fails at chunk 0 and leaves an empty file. -/
theorem exportData_failure_witness :
    ExportData ⟨Platform.gameCubeDisc, fun _ a => a, fun _ _ _ => false,
        fun _ _ => some 0⟩ ⟨0⟩
      ⟨fun _ => true, fun _ _ _ => true⟩ 10 3 "f" ⟨[], []⟩ =
      (false, FS.setFile ⟨[], []⟩ "f"
        (volumeBytes ⟨Platform.gameCubeDisc, fun _ a => a, fun _ _ _ => false,
          fun _ _ => some 0⟩ ⟨0⟩ 10 (0 * 0x08000000))) :=
  (exportData_failure ⟨Platform.gameCubeDisc, fun _ a => a, fun _ _ _ => false,
      fun _ _ => some 0⟩ ⟨0⟩ ⟨fun _ => true, fun _ _ _ => true⟩ 10 3 "f"
    ⟨[], []⟩ 0).2 rfl (by decide) (by decide)
    (fun i hi => absurd hi (Nat.not_lt_zero i)) (Or.inl rfl)

/-! ## Filesystem and exporter effect lemmas -/

theorem FS.getFile_setFile_self (fs : FS) (p : String) (c : List Nat) :
    (fs.setFile p c).getFile p = some c := by
  simp [FS.getFile, FS.setFile, List.find?]

theorem FS.getFile_setFile_ne (fs : FS) (p q : String) (c : List Nat)
    (hne : q ≠ p) : (fs.setFile p c).getFile q = fs.getFile q := by
  simp only [FS.getFile, FS.setFile, List.find?]
  rw [show (p == q) = false by simpa using fun hpq => hne hpq.symm]

theorem FS.fileExists_setFile_self (fs : FS) (p : String) (c : List Nat) :
    (fs.setFile p c).fileExists p = true := by
  simp [FS.fileExists, FS.setFile, List.find?]

theorem FS.fileExists_setFile_mono (fs : FS) (p q : String) (c : List Nat)
    (hq : fs.fileExists q = true) : (fs.setFile p c).fileExists q = true := by
  simp only [FS.fileExists, FS.setFile, List.find?]
  cases hpq : p == q
  · simpa [FS.fileExists] using hq
  · rfl

theorem FS.fileExists_addDir (fs : FS) (p q : String) :
    (fs.addDir p).fileExists q = fs.fileExists q := rfl

theorem FS.getFile_addDir (fs : FS) (p q : String) :
    (fs.addDir p).getFile q = fs.getFile q := rfl

theorem FS.files_addDir (fs : FS) (p : String) :
    (fs.addDir p).files = fs.files := rfl

theorem FS.dirs_addDir (fs : FS) (p : String) :
    (fs.addDir p).dirs = p :: fs.dirs := rfl

theorem FS.fileExists_congr (fs fs' : FS) (q : String)
    (hf : fs.files = fs'.files) : fs.fileExists q = fs'.fileExists q := by
  simp [FS.fileExists, hf]

theorem exportData_snd_dirs (v : Volume) (part : Partition) (h : Host)
    (offset size : Nat) (p : String) (fs : FS) :
    (ExportData v part h offset size p fs).2.dirs = fs.dirs := by
  rw [ExportData]
  cases h.openOk p <;> simp [FS.setFile]

theorem exportData_snd_getFile_ne (v : Volume) (part : Partition) (h : Host)
    (offset size : Nat) (p q : String) (fs : FS) (hne : q ≠ p) :
    (ExportData v part h offset size p fs).2.getFile q = fs.getFile q := by
  rw [ExportData]
  cases hopen : h.openOk p
  · rfl
  · simp only [if_true]
    exact FS.getFile_setFile_ne fs p q _ hne

theorem exportData_snd_fileExists_mono (v : Volume) (part : Partition)
    (h : Host) (offset size : Nat) (p q : String) (fs : FS)
    (hq : fs.fileExists q = true) :
    (ExportData v part h offset size p fs).2.fileExists q = true := by
  rw [ExportData]
  cases hopen : h.openOk p
  · exact hq
  · simp only [if_true]
    exact FS.fileExists_setFile_mono fs p q _ hq

theorem exportData_snd_of_openFail (v : Volume) (part : Partition) (h : Host)
    (offset size : Nat) (p : String) (fs : FS) (hopen : h.openOk p = false) :
    ExportData v part h offset size p fs = (false, fs) := by
  simp [ExportData, hopen]

theorem exportData_fileExists_of_open (v : Volume) (part : Partition)
    (h : Host) (offset size : Nat) (p : String) (fs : FS)
    (hopen : h.openOk p = true) :
    (ExportData v part h offset size p fs).2.fileExists p = true := by
  rw [ExportData, if_pos hopen]
  exact FS.fileExists_setFile_self fs p _

theorem exportData_fst_exists (v : Volume) (part : Partition) (h : Host)
    (offset size : Nat) (p : String) (fs : FS)
    (hsucc : (ExportData v part h offset size p fs).1 = true) :
    (ExportData v part h offset size p fs).2.fileExists p = true := by
  cases hopen : h.openOk p
  · rw [exportData_snd_of_openFail v part h offset size p fs hopen] at hsucc
    exact absurd hsucc (by simp)
  · exact exportData_fileExists_of_open v part h offset size p fs hopen

theorem exportFile_snd_dirs (v : Volume) (part : Partition) (h : Host)
    (info : Option FileInfo) (p : String) (fs : FS) :
    (ExportFile v part h info p fs).2.dirs = fs.dirs := by
  rw [ExportFile.eq_def]
  match info with
  | none => rfl
  | some fi =>
    cases hdir : fi.isDirectory
    · simp only [hdir]
      exact exportData_snd_dirs v part h fi.offset fi.size p fs
    · simp [hdir]

theorem exportFile_snd_getFile_ne (v : Volume) (part : Partition) (h : Host)
    (info : Option FileInfo) (p q : String) (fs : FS) (hne : q ≠ p) :
    (ExportFile v part h info p fs).2.getFile q = fs.getFile q := by
  rw [ExportFile.eq_def]
  match info with
  | none => rfl
  | some fi =>
    cases hdir : fi.isDirectory
    · simp only [hdir]
      exact exportData_snd_getFile_ne v part h fi.offset fi.size p q fs hne
    · simp [hdir]

theorem exportFile_snd_fileExists_mono (v : Volume) (part : Partition)
    (h : Host) (info : Option FileInfo) (p q : String) (fs : FS)
    (hq : fs.fileExists q = true) :
    (ExportFile v part h info p fs).2.fileExists q = true := by
  rw [ExportFile.eq_def]
  match info with
  | none => exact hq
  | some fi =>
    cases hdir : fi.isDirectory
    · simp only [hdir]
      exact exportData_snd_fileExists_mono v part h fi.offset fi.size p q fs hq
    · simpa [hdir]

theorem exportFile_file_snd_fileExists_or (v : Volume) (part : Partition)
    (h : Host) (fi : FileInfo) (p : String) (fs : FS)
    (hdir : fi.isDirectory = false) :
    (ExportFile v part h (some fi) p fs).2.fileExists p = true ∨
      h.openOk p = false := by
  cases hopen : h.openOk p
  · exact Or.inr rfl
  · left
    rw [ExportFile]
    simp only [hdir]
    exact exportData_fileExists_of_open v part h fi.offset fi.size p fs hopen

theorem exportFile_snd_files_of_openFail (v : Volume) (part : Partition)
    (h : Host) (info : Option FileInfo) (p : String) (fs : FS)
    (hopen : h.openOk p = false) :
    (ExportFile v part h info p fs).2 = fs := by
  rw [ExportFile.eq_def]
  match info with
  | none => rfl
  | some fi =>
    cases hdir : fi.isDirectory
    · simp only [hdir]
      rw [exportData_snd_of_openFail v part h fi.offset fi.size p fs hopen]
      simp
    · simp [hdir]

/-! ## Directory traversal lemmas -/

theorem exportEntries_nil (v : Volume) (part : Partition) (h : Host)
    (recursive : Bool) (cb : String → Bool) (fsp folder : String) (fs : FS) :
    exportEntries v part h recursive cb [] fsp folder fs = ⟨fs, [], false⟩ := by
  rw [exportEntries]

theorem exportEntries_cons (v : Volume) (part : Partition) (h : Host)
    (recursive : Bool) (cb : String → Bool) (nm : String) (off sz : Nat)
    (isDir : Bool) (children rest : List FileInfo) (fsp folder : String)
    (fs : FS) :
    exportEntries v part h recursive cb
        (FileInfo.mk nm off sz isDir children :: rest) fsp folder fs =
      (if cb (fsp ++ (nm ++ if isDir then "/" else "")) then
        ⟨fs, [fsp ++ (nm ++ if isDir then "/" else "")], true⟩
      else
        let inner : FS × List String :=
          if isDir = false then
            (if fs.fileExists (folder ++ "/" ++ (nm ++ if isDir then "/" else ""))
              then fs
             else
              (ExportFile v part h (some (FileInfo.mk nm off sz isDir children))
                (folder ++ "/" ++ (nm ++ if isDir then "/" else "")) fs).2, [])
          else if recursive then
            let d := exportEntries v part h recursive cb children
              (fsp ++ (nm ++ if isDir then "/" else ""))
              (folder ++ "/" ++ (nm ++ if isDir then "/" else ""))
              (fs.addDir ((folder ++ "/" ++ (nm ++ if isDir then "/" else "")) ++ "/"))
            (d.fs, d.trace)
          else (fs, [])
        let r := exportEntries v part h recursive cb rest fsp folder inner.1
        ⟨r.fs, (fsp ++ (nm ++ if isDir then "/" else "")) :: (inner.2 ++ r.trace),
          r.cancelled⟩) := by
  rw [exportEntries]


theorem sizeOf_head_children_lt (nm : String) (off sz : Nat) (isDir : Bool)
    (children rest : List FileInfo) :
    sizeOf children < sizeOf (FileInfo.mk nm off sz isDir children :: rest) ∧
    sizeOf rest < sizeOf (FileInfo.mk nm off sz isDir children :: rest) := by
  simp
  omega

/-- An existing host file is never overwritten by the traversal: its content
is preserved and it still exists afterwards. -/
theorem exportEntries_preserves (v : Volume) (part : Partition) (h : Host)
    (recursive : Bool) (cb : String → Bool) :
    ∀ entries fsp folder fs q, fs.fileExists q = true →
      (exportEntries v part h recursive cb entries fsp folder fs).fs.getFile q
          = fs.getFile q ∧
      (exportEntries v part h recursive cb entries fsp folder fs).fs.fileExists q
          = true := by
  have main : ∀ n entries, sizeOf (entries : List FileInfo) ≤ n →
      ∀ fsp folder fs q, fs.fileExists q = true →
      (exportEntries v part h recursive cb entries fsp folder fs).fs.getFile q
          = fs.getFile q ∧
      (exportEntries v part h recursive cb entries fsp folder fs).fs.fileExists q
          = true := by
    intro n
    induction n using Nat.strong_induction_on with
    | _ n ih =>
      intro entries hn fsp folder fs q hq
      match entries, hn with
      | [], _ =>
        rw [exportEntries_nil]
        exact ⟨rfl, hq⟩
      | FileInfo.mk nm off sz isDir children :: rest, hn =>
        have hsz := sizeOf_head_children_lt nm off sz isDir children rest
        rw [exportEntries_cons]
        by_cases hcb : cb (fsp ++ (nm ++ if isDir then "/" else "")) = true
        · rw [if_pos hcb]
          exact ⟨rfl, hq⟩
        · rw [if_neg hcb]
          cases isDir with
          | false =>
            simp only [Bool.false_eq_true, if_false, String.append_empty,
              reduceIte]
            by_cases hex : fs.fileExists (folder ++ "/" ++ nm) = true
            · simp only [hex, if_true]
              exact ih (sizeOf rest) (by omega) rest le_rfl fsp folder fs q hq
            · simp only [hex, if_false]
              have hpre : (ExportFile v part h
                  (some (FileInfo.mk nm off sz false children))
                  (folder ++ "/" ++ nm) fs).2.fileExists q = true :=
                exportFile_snd_fileExists_mono v part h _ _ q fs hq
              have hget : (ExportFile v part h
                  (some (FileInfo.mk nm off sz false children))
                  (folder ++ "/" ++ nm) fs).2.getFile q
                  = fs.getFile q := by
                refine exportFile_snd_getFile_ne v part h _ _ q fs ?_
                intro hqe
                rw [hqe] at hq
                rw [hq] at hex
                exact hex rfl
              have hr := ih (sizeOf rest) (by omega) rest le_rfl fsp folder _ q hpre
              exact ⟨hr.1.trans hget, hr.2⟩
          | true =>
            simp only [if_true, reduceIte]
            cases recursive with
            | false =>
              simp only [Bool.false_eq_true, if_false]
              exact ih (sizeOf rest) (by omega) rest le_rfl fsp folder fs q hq
            | true =>
              simp only [if_true]
              have hq2 : (fs.addDir
                  (folder ++ "/" ++ (nm ++ "/") ++ "/")).fileExists q = true := hq
              have hc := ih (sizeOf children) (by omega) children le_rfl
                (fsp ++ (nm ++ "/")) (folder ++ "/" ++ (nm ++ "/")) _ q hq2
              have hr := ih (sizeOf rest) (by omega) rest le_rfl fsp folder _ q hc.2
              exact ⟨hr.1.trans hc.1, hr.2⟩
  intro entries fsp folder fs q hq
  exact main (sizeOf entries) entries le_rfl fsp folder fs q hq


/-- With `recursive = false` the traversal never records a host directory. -/
theorem exportEntries_dirs_norec (v : Volume) (part : Partition) (h : Host)
    (cb : String → Bool) :
    ∀ entries fsp folder fs,
      (exportEntries v part h false cb entries fsp folder fs).fs.dirs
        = fs.dirs := by
  have main : ∀ n entries, sizeOf (entries : List FileInfo) ≤ n →
      ∀ fsp folder fs,
      (exportEntries v part h false cb entries fsp folder fs).fs.dirs
        = fs.dirs := by
    intro n
    induction n using Nat.strong_induction_on with
    | _ n ih =>
      intro entries hn fsp folder fs
      match entries, hn with
      | [], _ => rw [exportEntries_nil]
      | FileInfo.mk nm off sz isDir children :: rest, hn =>
        have hsz := sizeOf_head_children_lt nm off sz isDir children rest
        rw [exportEntries_cons]
        by_cases hcb : cb (fsp ++ (nm ++ if isDir then "/" else "")) = true
        · rw [if_pos hcb]
        · rw [if_neg hcb]
          cases isDir with
          | false =>
            simp only [Bool.false_eq_true, if_false, String.append_empty,
              reduceIte]
            by_cases hex : fs.fileExists (folder ++ "/" ++ nm) = true
            · simp only [hex, if_true]
              exact ih (sizeOf rest) (by omega) rest le_rfl fsp folder fs
            · simp only [hex, if_false]
              rw [ih (sizeOf rest) (by omega) rest le_rfl fsp folder _]
              exact exportFile_snd_dirs v part h _ _ fs
          | true =>
            simp only [if_true, Bool.false_eq_true, if_false, reduceIte]
            exact ih (sizeOf rest) (by omega) rest le_rfl fsp folder fs
  intro entries fsp folder fs
  exact main (sizeOf entries) entries le_rfl fsp folder fs

/-- With `recursive = false`, only the direct non-directory children's export
paths can be touched: any other path keeps its content. -/
theorem exportEntries_norec_getFile (v : Volume) (part : Partition) (h : Host)
    (cb : String → Bool) :
    ∀ entries fsp folder fs q,
      q ∉ exportFilePaths false entries folder →
      (exportEntries v part h false cb entries fsp folder fs).fs.getFile q
        = fs.getFile q := by
  have main : ∀ n entries, sizeOf (entries : List FileInfo) ≤ n →
      ∀ fsp folder fs q, q ∉ exportFilePaths false entries folder →
      (exportEntries v part h false cb entries fsp folder fs).fs.getFile q
        = fs.getFile q := by
    intro n
    induction n using Nat.strong_induction_on with
    | _ n ih =>
      intro entries hn fsp folder fs q hq
      match entries, hn with
      | [], _ => rw [exportEntries_nil]
      | FileInfo.mk nm off sz isDir children :: rest, hn =>
        have hsz := sizeOf_head_children_lt nm off sz isDir children rest
        rw [exportEntries_cons]
        by_cases hcb : cb (fsp ++ (nm ++ if isDir then "/" else "")) = true
        · rw [if_pos hcb]
        · rw [if_neg hcb]
          cases isDir with
          | false =>
            rw [exportFilePaths] at hq
            simp only [Bool.false_eq_true, if_false, String.append_empty,
              reduceIte] at hq ⊢
            simp only [List.mem_append, List.mem_singleton] at hq
            push_neg at hq
            by_cases hex : fs.fileExists (folder ++ "/" ++ nm) = true
            · simp only [hex, if_true]
              exact ih (sizeOf rest) (by omega) rest le_rfl fsp folder fs q hq.2
            · simp only [hex, if_false]
              rw [ih (sizeOf rest) (by omega) rest le_rfl fsp folder _ q hq.2]
              exact exportFile_snd_getFile_ne v part h _ _ q fs hq.1
          | true =>
            rw [exportFilePaths] at hq
            simp only [if_true, Bool.false_eq_true, if_false, reduceIte,
              List.nil_append] at hq ⊢
            exact ih (sizeOf rest) (by omega) rest le_rfl fsp folder fs q hq
  intro entries fsp folder fs q hq
  exact main (sizeOf entries) entries le_rfl fsp folder fs q hq

/-- The non-recursive file-path enumeration is exactly the direct
non-directory children's export paths. -/
theorem exportFilePaths_false_eq (folder : String) :
    ∀ entries, exportFilePaths false entries folder
      = (entries.filter fun c => !c.isDirectory).map
          (fun c => folder ++ "/" ++ c.name) := by
  intro entries
  induction entries with
  | nil =>
    rw [exportFilePaths]
    rfl
  | cons e rest ihr =>
    match e with
    | FileInfo.mk nm off sz isDir children =>
      rw [exportFilePaths]
      cases isDir with
      | false =>
        simp only [Bool.false_eq_true, if_false, List.filter_cons]
        simp [FileInfo.isDirectory, FileInfo.name, ihr]
      | true =>
        simp only [if_true, List.filter_cons]
        simp [FileInfo.isDirectory, FileInfo.name, ihr]

/-- C7: with `recursive = false`, child directories are skipped entirely:
the only host directory created is the top-level export folder, and the only
file contents that can change are those at the export paths of the direct
non-directory children. -/
theorem exportDirectory_nonrecursive (v : Volume) (part : Partition)
    (h : Host) (dir : FileInfo) (fsp folder : String) (cb : String → Bool)
    (fs : FS) :
    (ExportDirectory v part h dir false fsp folder cb fs).fs.dirs
        = (folder ++ "/") :: fs.dirs ∧
    (∀ q, q ∉ (dir.children.filter fun c => !c.isDirectory).map
        (fun c => folder ++ "/" ++ c.name) →
      (ExportDirectory v part h dir false fsp folder cb fs).fs.getFile q
        = fs.getFile q) := by
  constructor
  · rw [ExportDirectory]
    rw [exportEntries_dirs_norec v part h cb dir.children fsp folder _]
    rfl
  · intro q hq
    rw [ExportDirectory]
    rw [exportEntries_norec_getFile v part h cb dir.children fsp folder _ q
      (by rw [exportFilePaths_false_eq]; exact hq)]
    rfl

/-- Witness for C7 at a concrete input: a directory with a file child and a
directory child, exported non-recursively. -/
theorem exportDirectory_nonrecursive_witness :
    (ExportDirectory ⟨Platform.gameCubeDisc, fun _ a => a, fun _ _ _ => true,
        fun _ _ => some 0⟩ ⟨0⟩ ⟨fun _ => true, fun _ _ _ => true⟩
      (FileInfo.mk "root" 0 0 true
        [FileInfo.mk "A" 0 0 true [FileInfo.mk "x" 5 1 false []],
         FileInfo.mk "y" 7 1 false []])
      false "" "out" (fun _ => false) ⟨[], []⟩).fs.dirs = ["out/"] ∧
    (ExportDirectory ⟨Platform.gameCubeDisc, fun _ a => a, fun _ _ _ => true,
        fun _ _ => some 0⟩ ⟨0⟩ ⟨fun _ => true, fun _ _ _ => true⟩
      (FileInfo.mk "root" 0 0 true
        [FileInfo.mk "A" 0 0 true [FileInfo.mk "x" 5 1 false []],
         FileInfo.mk "y" 7 1 false []])
      false "" "out" (fun _ => false) ⟨[], []⟩).fs.getFile "out/A/x"
      = FS.getFile ⟨[], []⟩ "out/A/x" :=
  ⟨(exportDirectory_nonrecursive _ _ _ _ "" "out" _ ⟨[], []⟩).1,
   (exportDirectory_nonrecursive _ _ _ _ "" "out" _ ⟨[], []⟩).2 "out/A/x"
     (by decide)⟩


/-- After an uncancelled traversal, every enumerated file export path either
exists on the host or cannot be opened at all. -/
theorem exportEntries_coverage (v : Volume) (part : Partition) (h : Host)
    (recursive : Bool) (cb : String → Bool) (hcb : ∀ s, cb s = false) :
    ∀ entries fsp folder fs q,
      q ∈ exportFilePaths recursive entries folder →
      (exportEntries v part h recursive cb entries fsp folder fs).fs.fileExists q
          = true ∨ h.openOk q = false := by
  have main : ∀ n entries, sizeOf (entries : List FileInfo) ≤ n →
      ∀ fsp folder fs q, q ∈ exportFilePaths recursive entries folder →
      (exportEntries v part h recursive cb entries fsp folder fs).fs.fileExists q
          = true ∨ h.openOk q = false := by
    intro n
    induction n using Nat.strong_induction_on with
    | _ n ih =>
      intro entries hn fsp folder fs q hq
      match entries, hn with
      | [], _ =>
        rw [exportFilePaths] at hq
        exact absurd hq (List.not_mem_nil q)
      | FileInfo.mk nm off sz isDir children :: rest, hn =>
        have hsz := sizeOf_head_children_lt nm off sz isDir children rest
        rw [exportFilePaths] at hq
        rw [exportEntries_cons, if_neg (by rw [hcb]; exact Bool.false_ne_true)]
        cases isDir with
        | false =>
          simp only [Bool.false_eq_true, if_false, String.append_empty,
            reduceIte] at hq ⊢
          rw [List.mem_append, List.mem_singleton] at hq
          rcases hq with hq1 | hq2
          · subst hq1
            by_cases hex : fs.fileExists (folder ++ "/" ++ nm) = true
            · simp only [hex, if_true]
              left
              exact (exportEntries_preserves v part h recursive cb rest fsp
                folder fs _ hex).2
            · simp only [hex, if_false]
              rcases exportFile_file_snd_fileExists_or v part h
                  (FileInfo.mk nm off sz false children)
                  (folder ++ "/" ++ nm) fs rfl with hex2 | hop
              · left
                exact (exportEntries_preserves v part h recursive cb rest fsp
                  folder _ _ hex2).2
              · exact Or.inr hop
          · by_cases hex : fs.fileExists (folder ++ "/" ++ nm) = true
            · simp only [hex, if_true]
              exact ih (sizeOf rest) (by omega) rest le_rfl fsp folder fs q hq2
            · simp only [hex, if_false]
              exact ih (sizeOf rest) (by omega) rest le_rfl fsp folder _ q hq2
        | true =>
          simp only [if_true, reduceIte] at hq ⊢
          cases recursive with
          | false =>
            simp only [Bool.false_eq_true, if_false] at hq ⊢
            rw [List.nil_append] at hq
            exact ih (sizeOf rest) (by omega) rest le_rfl fsp folder fs q hq
          | true =>
            simp only [if_true] at hq ⊢
            rw [List.mem_append] at hq
            rcases hq with hq1 | hq2
            · rcases ih (sizeOf children) (by omega) children le_rfl
                  (fsp ++ (nm ++ "/")) (folder ++ "/" ++ (nm ++ "/"))
                  (fs.addDir (folder ++ "/" ++ (nm ++ "/") ++ "/")) q hq1 with
                hex | hop
              · left
                exact (exportEntries_preserves v part h true cb rest fsp
                  folder _ _ hex).2
              · exact Or.inr hop
            · exact ih (sizeOf rest) (by omega) rest le_rfl fsp folder _ q hq2
  intro entries fsp folder fs q hq
  exact main (sizeOf entries) entries le_rfl fsp folder fs q hq


/-- If every enumerated file export path already exists (or cannot be
opened), an uncancelled traversal writes no file contents at all. -/
theorem exportEntries_stable (v : Volume) (part : Partition) (h : Host)
    (recursive : Bool) (cb : String → Bool) (hcb : ∀ s, cb s = false) :
    ∀ entries fsp folder fs,
      (∀ q, q ∈ exportFilePaths recursive entries folder →
        fs.fileExists q = true ∨ h.openOk q = false) →
      (exportEntries v part h recursive cb entries fsp folder fs).fs.files
        = fs.files := by
  have main : ∀ n entries, sizeOf (entries : List FileInfo) ≤ n →
      ∀ fsp folder fs,
      (∀ q, q ∈ exportFilePaths recursive entries folder →
        fs.fileExists q = true ∨ h.openOk q = false) →
      (exportEntries v part h recursive cb entries fsp folder fs).fs.files
        = fs.files := by
    intro n
    induction n using Nat.strong_induction_on with
    | _ n ih =>
      intro entries hn fsp folder fs hcov
      match entries, hn with
      | [], _ => rw [exportEntries_nil]
      | FileInfo.mk nm off sz isDir children :: rest, hn =>
        have hsz := sizeOf_head_children_lt nm off sz isDir children rest
        rw [exportEntries_cons, if_neg (by rw [hcb]; exact Bool.false_ne_true)]
        cases isDir with
        | false =>
          simp only [Bool.false_eq_true, if_false, String.append_empty,
            reduceIte] at hcov ⊢
          have hrest : ∀ q, q ∈ exportFilePaths recursive rest folder →
              fs.fileExists q = true ∨ h.openOk q = false := by
            intro q hqr
            refine hcov q ?_
            rw [exportFilePaths]
            simp only [Bool.false_eq_true, if_false, String.append_empty]
            exact List.mem_append_right _ hqr
          have hhead := hcov (folder ++ "/" ++ nm) (by
            rw [exportFilePaths]
            simp only [Bool.false_eq_true, if_false, String.append_empty]
            exact List.mem_append_left _ (List.mem_singleton_self _))
          by_cases hex : fs.fileExists (folder ++ "/" ++ nm) = true
          · simp only [hex, if_true]
            exact ih (sizeOf rest) (by omega) rest le_rfl fsp folder fs hrest
          · simp only [hex, if_false]
            have hop : h.openOk (folder ++ "/" ++ nm) = false := by
              rcases hhead with h1 | h2
              · exact absurd h1 hex
              · exact h2
            rw [exportFile_snd_files_of_openFail v part h _ _ fs hop]
            exact ih (sizeOf rest) (by omega) rest le_rfl fsp folder fs hrest
        | true =>
          simp only [if_true, reduceIte] at hcov ⊢
          cases recursive with
          | false =>
            simp only [Bool.false_eq_true, if_false] at hcov ⊢
            refine ih (sizeOf rest) (by omega) rest le_rfl fsp folder fs ?_
            intro q hqr
            refine hcov q ?_
            rw [exportFilePaths]
            simp only [if_true, Bool.false_eq_true, if_false, List.nil_append]
            exact hqr
          | true =>
            simp only [if_true, Bool.true_eq_false, if_false] at hcov ⊢
            have hchild : (exportEntries v part h true cb children
                (fsp ++ (nm ++ "/")) (folder ++ "/" ++ (nm ++ "/"))
                (fs.addDir (folder ++ "/" ++ (nm ++ "/") ++ "/"))).fs.files
                = fs.files := by
              rw [ih (sizeOf children) (by omega) children le_rfl
                (fsp ++ (nm ++ "/")) (folder ++ "/" ++ (nm ++ "/"))
                (fs.addDir (folder ++ "/" ++ (nm ++ "/") ++ "/")) ?_]
              · rfl
              · intro q hqc
                refine hcov q ?_
                rw [exportFilePaths]
                simp only [if_true]
                exact List.mem_append_left _ hqc
            rw [ih (sizeOf rest) (by omega) rest le_rfl fsp folder
              (exportEntries v part h true cb children (fsp ++ (nm ++ "/"))
                (folder ++ "/" ++ (nm ++ "/"))
                (fs.addDir (folder ++ "/" ++ (nm ++ "/") ++ "/"))).fs ?_]
            · exact hchild
            · intro q hqr
              rw [FS.fileExists_congr _ fs q hchild]
              refine hcov q ?_
              rw [exportFilePaths]
              simp only [if_true]
              exact List.mem_append_right _ hqr
  intro entries fsp folder fs hcov
  exact main (sizeOf entries) entries le_rfl fsp folder fs hcov

/-- In an uncancelled traversal the progress callback is invoked exactly on
the traversed entries' logical paths, in pre-order, and the loop never takes
its early return. -/
theorem exportEntries_trace (v : Volume) (part : Partition) (h : Host)
    (recursive : Bool) (cb : String → Bool) (hcb : ∀ s, cb s = false) :
    ∀ entries fsp folder fs,
      (exportEntries v part h recursive cb entries fsp folder fs).trace
        = specEntryPaths recursive entries fsp ∧
      (exportEntries v part h recursive cb entries fsp folder fs).cancelled
        = false := by
  have main : ∀ n entries, sizeOf (entries : List FileInfo) ≤ n →
      ∀ fsp folder fs,
      (exportEntries v part h recursive cb entries fsp folder fs).trace
        = specEntryPaths recursive entries fsp ∧
      (exportEntries v part h recursive cb entries fsp folder fs).cancelled
        = false := by
    intro n
    induction n using Nat.strong_induction_on with
    | _ n ih =>
      intro entries hn fsp folder fs
      match entries, hn with
      | [], _ =>
        rw [exportEntries_nil, specEntryPaths]
        exact ⟨rfl, rfl⟩
      | FileInfo.mk nm off sz isDir children :: rest, hn =>
        have hsz := sizeOf_head_children_lt nm off sz isDir children rest
        rw [exportEntries_cons, if_neg (by rw [hcb]; exact Bool.false_ne_true),
          specEntryPaths]
        cases isDir with
        | false =>
          simp only [Bool.false_eq_true, if_false, String.append_empty,
            Bool.false_and, List.nil_append, reduceIte]
          by_cases hex : fs.fileExists (folder ++ "/" ++ nm) = true
          · simp only [hex, if_true]
            have hr := ih (sizeOf rest) (by omega) rest le_rfl fsp folder fs
            exact ⟨by rw [hr.1], hr.2⟩
          · simp only [hex, Bool.false_eq_true, if_false]
            have hr := ih (sizeOf rest) (by omega) rest le_rfl fsp folder
              (ExportFile v part h (some (FileInfo.mk nm off sz false children))
                (folder ++ "/" ++ nm) fs).2
            exact ⟨by rw [hr.1], hr.2⟩
        | true =>
          simp only [if_true, Bool.true_and, reduceIte]
          cases recursive with
          | false =>
            simp only [Bool.false_eq_true, Bool.true_eq_false, if_false,
              List.nil_append]
            have hr := ih (sizeOf rest) (by omega) rest le_rfl fsp folder fs
            exact ⟨by rw [hr.1], hr.2⟩
          | true =>
            simp only [if_true, Bool.true_eq_false, if_false]
            have hc := ih (sizeOf children) (by omega) children le_rfl
              (fsp ++ (nm ++ "/")) (folder ++ "/" ++ (nm ++ "/"))
              (fs.addDir (folder ++ "/" ++ (nm ++ "/") ++ "/"))
            have hr := ih (sizeOf rest) (by omega) rest le_rfl fsp folder
              (exportEntries v part h true cb children (fsp ++ (nm ++ "/"))
                (folder ++ "/" ++ (nm ++ "/"))
                (fs.addDir (folder ++ "/" ++ (nm ++ "/") ++ "/"))).fs
            exact ⟨by rw [hc.1, hr.1], hr.2⟩

  intro entries fsp folder fs
  exact main (sizeOf entries) entries le_rfl fsp folder fs


/-- C6: in an uncancelled run, `ExportDirectory` never overwrites an
existing host file (its content is preserved), re-running the same export
onto its own prior output writes no file contents, and every traversed entry
is reported to the progress callback exactly once, in traversal order. -/
theorem exportDirectory_no_overwrite (v : Volume) (part : Partition)
    (h : Host) (dir : FileInfo) (recursive : Bool) (fsp folder : String)
    (cb : String → Bool) (fs : FS) (hcb : ∀ s, cb s = false) :
    (∀ q, fs.fileExists q = true →
      (ExportDirectory v part h dir recursive fsp folder cb fs).fs.getFile q
        = fs.getFile q) ∧
    (ExportDirectory v part h dir recursive fsp folder cb
        (ExportDirectory v part h dir recursive fsp folder cb fs).fs).fs.files
      = (ExportDirectory v part h dir recursive fsp folder cb fs).fs.files ∧
    (ExportDirectory v part h dir recursive fsp folder cb fs).trace
      = specEntryPaths recursive dir.children fsp := by
  refine ⟨?_, ?_, ?_⟩
  · intro q hq
    rw [ExportDirectory]
    exact (exportEntries_preserves v part h recursive cb dir.children fsp
      folder (fs.addDir (folder ++ "/")) q hq).1
  · rw [ExportDirectory, ExportDirectory]
    refine exportEntries_stable v part h recursive cb hcb dir.children fsp
      folder _ ?_
    intro q hq
    rcases exportEntries_coverage v part h recursive cb hcb dir.children fsp
        folder (fs.addDir (folder ++ "/")) q hq with hex | hop
    · exact Or.inl hex
    · exact Or.inr hop
  · rw [ExportDirectory]
    exact (exportEntries_trace v part h recursive cb hcb dir.children fsp
      folder (fs.addDir (folder ++ "/"))).1

/-- Witness for C6 at a concrete input: a directory with a subdirectory and
two files, exported recursively with a never-cancelling callback. -/
theorem exportDirectory_no_overwrite_witness :
    (ExportDirectory ⟨Platform.gameCubeDisc, fun _ a => a, fun _ _ _ => true,
        fun _ _ => some 0⟩ ⟨0⟩ ⟨fun _ => true, fun _ _ _ => true⟩
      (FileInfo.mk "root" 0 0 true
        [FileInfo.mk "A" 0 0 true [FileInfo.mk "x" 5 1 false []],
         FileInfo.mk "y" 7 1 false []])
      true "" "out" (fun _ => false) ⟨[("seed", [9])], []⟩).trace
      = specEntryPaths true
          (FileInfo.mk "root" 0 0 true
            [FileInfo.mk "A" 0 0 true [FileInfo.mk "x" 5 1 false []],
             FileInfo.mk "y" 7 1 false []]).children "" :=
  (exportDirectory_no_overwrite
    ⟨Platform.gameCubeDisc, fun _ a => a, fun _ _ _ => true, fun _ _ => some 0⟩
    ⟨0⟩ ⟨fun _ => true, fun _ _ _ => true⟩
    (FileInfo.mk "root" 0 0 true
      [FileInfo.mk "A" 0 0 true [FileInfo.mk "x" 5 1 false []],
       FileInfo.mk "y" 7 1 false []])
    true "" "out" (fun _ => false) ⟨[("seed", [9])], []⟩
    (fun _ => rfl)).2.2


/-- C2 counterexample: the tree has a subdirectory `A` containing file `x`
and a sibling file `y`; the callback returns `true` exactly on `"A/x"`.
Cancellation inside `A` only ends the traversal of `A`: the top-level loop
continues, the callback is invoked again on `"y"` after having returned
`true`, and `y` is exported. -/
theorem exportDirectory_cancel_counterexample :
    (fun p => p == "A/x") "A/x" = true ∧
    (ExportDirectory ⟨Platform.gameCubeDisc, fun _ a => a, fun _ _ _ => true,
        fun _ _ => some 0⟩ ⟨0⟩ ⟨fun _ => true, fun _ _ _ => true⟩
      (FileInfo.mk "root" 0 0 true
        [FileInfo.mk "A" 0 0 true [FileInfo.mk "x" 5 1 false []],
         FileInfo.mk "y" 7 1 false []])
      true "" "out" (fun p => p == "A/x") ⟨[], []⟩).trace
      = ["A/", "A/x", "y"] ∧
    (ExportDirectory ⟨Platform.gameCubeDisc, fun _ a => a, fun _ _ _ => true,
        fun _ _ => some 0⟩ ⟨0⟩ ⟨fun _ => true, fun _ _ _ => true⟩
      (FileInfo.mk "root" 0 0 true
        [FileInfo.mk "A" 0 0 true [FileInfo.mk "x" 5 1 false []],
         FileInfo.mk "y" 7 1 false []])
      true "" "out" (fun p => p == "A/x") ⟨[], []⟩).fs.fileExists "out/y"
      = true := by
  refine ⟨rfl, ?_, ?_⟩ <;>
    simp [ExportDirectory, exportEntries, FileInfo.children, FS.fileExists,
      FS.addDir, ExportFile, ExportData, exportDataLoop, Volume.read,
      FS.setFile, FileInfo.isDirectory, FileInfo.offset, FileInfo.size,
      List.range_succ]

/-- C2 (amended): cancellation is per-invocation.  Once the callback returns
`true` for an entry, the current directory invocation stops immediately with
the filesystem unchanged from that point and no further entry of that
invocation processed or reported; but the loop of an enclosing (or
subsequent) invocation resumes after an inner cancellation, which is exactly
the split law for the loop over an appended entry list. -/
theorem exportDirectory_cancel_amended (v : Volume) (part : Partition)
    (h : Host) (recursive : Bool) (cb : String → Bool) :
    (∀ (nm : String) (off sz : Nat) (isDir : Bool)
        (children rest : List FileInfo) (fsp folder : String) (fs : FS),
      cb (fsp ++ (nm ++ if isDir then "/" else "")) = true →
      exportEntries v part h recursive cb
          (FileInfo.mk nm off sz isDir children :: rest) fsp folder fs
        = ⟨fs, [fsp ++ (nm ++ if isDir then "/" else "")], true⟩) ∧
    (∀ (l1 l2 : List FileInfo) (fsp folder : String) (fs : FS),
      exportEntries v part h recursive cb (l1 ++ l2) fsp folder fs =
        (if (exportEntries v part h recursive cb l1 fsp folder fs).cancelled
          then exportEntries v part h recursive cb l1 fsp folder fs
         else
          ⟨(exportEntries v part h recursive cb l2 fsp folder
              (exportEntries v part h recursive cb l1 fsp folder fs).fs).fs,
           (exportEntries v part h recursive cb l1 fsp folder fs).trace ++
             (exportEntries v part h recursive cb l2 fsp folder
               (exportEntries v part h recursive cb l1 fsp folder fs).fs).trace,
           (exportEntries v part h recursive cb l2 fsp folder
             (exportEntries v part h recursive cb l1 fsp folder fs).fs).cancelled⟩)) := by
  constructor
  · intro nm off sz isDir children rest fsp folder fs hcb
    rw [exportEntries_cons, if_pos hcb]
  · intro l1
    induction l1 with
    | nil =>
      intro l2 fsp folder fs
      rw [List.nil_append, exportEntries_nil]
      simp
    | cons e l1 ihl =>
      intro l2 fsp folder fs
      match e with
      | FileInfo.mk nm off sz isDir children =>
        rw [List.cons_append, exportEntries_cons, exportEntries_cons]
        by_cases hcb : cb (fsp ++ (nm ++ if isDir then "/" else "")) = true
        · rw [if_pos hcb, if_pos hcb]
          simp
        · rw [if_neg hcb, if_neg hcb]
          simp only []
          generalize (if isDir = false then
              (if fs.fileExists (folder ++ "/" ++ (nm ++ if isDir then "/" else "")) = true
                then fs
               else
                (ExportFile v part h (some (FileInfo.mk nm off sz isDir children))
                  (folder ++ "/" ++ (nm ++ if isDir then "/" else "")) fs).2, ([] : List String))
            else
              if recursive = true then
                ((exportEntries v part h recursive cb children
                    (fsp ++ (nm ++ if isDir then "/" else ""))
                    (folder ++ "/" ++ (nm ++ if isDir then "/" else ""))
                    (fs.addDir (folder ++ "/" ++ (nm ++ if isDir then "/" else "") ++ "/"))).fs,
                 (exportEntries v part h recursive cb children
                    (fsp ++ (nm ++ if isDir then "/" else ""))
                    (folder ++ "/" ++ (nm ++ if isDir then "/" else ""))
                    (fs.addDir (folder ++ "/" ++ (nm ++ if isDir then "/" else "") ++ "/"))).trace)
              else (fs, [])) = P
          rw [ihl l2 fsp folder]
          cases hc : (exportEntries v part h recursive cb l1 fsp folder P.1).cancelled with
          | true => simp [hc]
          | false => simp [hc]


/-- Witness for the amended C2 at a concrete input: a callback that cancels
on the first entry stops that invocation with the filesystem untouched. -/
theorem exportDirectory_cancel_amended_witness :
    exportEntries ⟨Platform.gameCubeDisc, fun _ a => a, fun _ _ _ => true,
        fun _ _ => some 0⟩ ⟨0⟩ ⟨fun _ => true, fun _ _ _ => true⟩ true
      (fun _ => true) [FileInfo.mk "y" 7 1 false []] "" "out" ⟨[], []⟩
      = ⟨⟨[], []⟩, ["" ++ ("y" ++ if false then "/" else "")], true⟩ :=
  (exportDirectory_cancel_amended ⟨Platform.gameCubeDisc, fun _ a => a,
      fun _ _ _ => true, fun _ _ => some 0⟩ ⟨0⟩
    ⟨fun _ => true, fun _ _ _ => true⟩ true (fun _ => true)).1
    "y" 7 1 false [] [] "" "out" ⟨[], []⟩ rfl

/-! ## C9: system data exporter -/

theorem String.append_right_ne (folder s t : String) (hst : s ≠ t) :
    folder ++ s ≠ folder ++ t := by
  intro he
  apply hst
  have hd := congrArg String.data he
  rw [String.data_append, String.data_append] at hd
  have hdd := List.append_cancel_left hd
  cases s
  cases t
  exact congrArg String.mk hdd

theorem exportDOL_snd_getFile_ne (v : Volume) (part : Partition) (h : Host)
    (fname q : String) (fs : FS) (hne : q ≠ fname) :
    (ExportDOL v part h fname fs).2.getFile q = fs.getFile q := by
  rw [ExportDOL]
  split
  · split
    · rfl
    · split
      · rfl
      · exact exportData_snd_getFile_ne v part h _ _ fname q fs hne
  · rfl

theorem exportDOL_snd_fileExists_mono (v : Volume) (part : Partition)
    (h : Host) (fname q : String) (fs : FS) (hq : fs.fileExists q = true) :
    (ExportDOL v part h fname fs).2.fileExists q = true := by
  rw [ExportDOL]
  split
  · split
    · exact hq
    · split
      · exact hq
      · exact exportData_snd_fileExists_mono v part h _ _ fname q fs hq
  · exact hq

theorem exportDOL_fst_exists (v : Volume) (part : Partition) (h : Host)
    (fname : String) (fs : FS)
    (hsucc : (ExportDOL v part h fname fs).1 = true) :
    (ExportDOL v part h fname fs).2.fileExists fname = true := by
  rw [ExportDOL] at hsucc ⊢
  cases hdisc : IsDisc v.volumeType
  · rw [hdisc] at hsucc
    simp at hsucc
  · rw [hdisc] at hsucc
    rw [if_pos rfl] at hsucc ⊢
    split at hsucc
    · exact absurd hsucc (by simp)
    · next doff hoff =>
      split at hsucc
      · exact absurd hsucc (by simp)
      · next dsz hsz =>
        exact exportData_fst_exists v part h doff dsz fname fs hsucc

theorem exportApploader_fst_exists (v : Volume) (part : Partition) (h : Host)
    (fname : String) (fs : FS)
    (hsucc : (ExportApploader v part h fname fs).1 = true) :
    (ExportApploader v part h fname fs).2.fileExists fname = true := by
  rw [ExportApploader] at hsucc ⊢
  cases hdisc : IsDisc v.volumeType
  · rw [hdisc] at hsucc
    simp at hsucc
  · rw [hdisc] at hsucc
    rw [if_pos rfl] at hsucc ⊢
    split at hsucc
    · next apl trl hapl htrl =>
      exact exportData_fst_exists v part h 0x2440 _ fname fs hsucc
    · exact absurd hsucc (by simp)

/-- C9: `ExportSystemData` attempts the apploader export and then, on the
resulting filesystem, the boot-executable export; it succeeds exactly when
both succeed, and when exactly one fails the other artifact's file is still
present in the final filesystem (the boot.dol export never touches
apploader.img). -/
theorem exportSystemData_spec (v : Volume) (part : Partition) (h : Host)
    (folder : String) (fs : FS) :
    (ExportSystemData v part h folder fs).1
      = ((ExportApploader v part h (folder ++ "/apploader.img") fs).1 &&
         (ExportDOL v part h (folder ++ "/boot.dol")
           (ExportApploader v part h (folder ++ "/apploader.img") fs).2).1) ∧
    ((ExportDOL v part h (folder ++ "/boot.dol")
        (ExportApploader v part h (folder ++ "/apploader.img") fs).2).1 = true →
      (ExportSystemData v part h folder fs).2.fileExists (folder ++ "/boot.dol")
        = true) ∧
    ((ExportApploader v part h (folder ++ "/apploader.img") fs).1 = true →
      (ExportSystemData v part h folder fs).2.fileExists
          (folder ++ "/apploader.img") = true ∧
      (ExportSystemData v part h folder fs).2.getFile (folder ++ "/apploader.img")
        = (ExportApploader v part h (folder ++ "/apploader.img") fs).2.getFile
            (folder ++ "/apploader.img")) := by
  refine ⟨rfl, ?_, ?_⟩
  · intro hdol
    exact exportDOL_fst_exists v part h (folder ++ "/boot.dol") _ hdol
  · intro hapl
    have hne : (folder ++ "/apploader.img") ≠ (folder ++ "/boot.dol") :=
      String.append_right_ne folder "/apploader.img" "/boot.dol" (by decide)
    constructor
    · exact exportDOL_snd_fileExists_mono v part h (folder ++ "/boot.dol") _ _
        (exportApploader_fst_exists v part h (folder ++ "/apploader.img") fs hapl)
    · exact exportDOL_snd_getFile_ne v part h (folder ++ "/boot.dol") _ _ hne

/-- Witness for C9 at a concrete input: the apploader read at `0x2454`
fails, so the apploader export fails, but the boot.dol export (with a DOL of
computed size 0) succeeds and `boot.dol` is present in the final
filesystem. -/
theorem exportSystemData_spec_witness :
    (ExportSystemData ⟨Platform.gameCubeDisc, fun _ a => a, fun _ _ _ => true,
        fun _ a => if a = 0x2454 then none else some 0⟩ ⟨0⟩
      ⟨fun _ => true, fun _ _ _ => true⟩ "out" ⟨[], []⟩).2.fileExists
      ("out" ++ "/boot.dol") = true :=
  (exportSystemData_spec ⟨Platform.gameCubeDisc, fun _ a => a,
      fun _ _ _ => true, fun _ a => if a = 0x2454 then none else some 0⟩ ⟨0⟩
    ⟨fun _ => true, fun _ _ _ => true⟩ "out" ⟨[], []⟩).2.1
    (by
      simp [ExportDOL, ExportApploader, GetBootDOLOffset, GetBootDOLSize,
        dolSegmentLoop, ExportData, exportDataLoop, IsDisc, Volume.read])

end DiscExtractor
